import Mathlib

/-!
Verification development for the SimCLR training core
(`src/simclr/utils/simclr_train_v2.py`).

The file shallowly embeds the two functions of the source file:

* `info_nce_loss` — contrastive pair construction.  Tensors of rank 2 are
  lists of row lists; float arithmetic is modelled by exact real arithmetic.
  `tensor.view(n, -1)` is partial in PyTorch (it raises when the element
  count is zero or not divisible by `n`), so the embedded pipeline returns
  an `Option`.
* `train_simclr` — the training loop.  The model, optimizer, scheduler,
  criterion, accuracy and data-loader collaborators are opaque in the
  source, so the loop is embedded as a trace-producing function over an
  environment that fixes the per-step collaborator values; the control
  flow (counters, logging condition, warm-up test, checkpoint tail) is
  translated line by line from the source.
-/

namespace SimCLR

/-- Rank-2 tensors are modelled as lists of rows. -/
abbrev Mat (α : Type) := List (List α)

/-- Configuration fields of `args` read by `info_nce_loss`. -/
structure NceArgs where
  batch_size : Nat
  n_views : Nat
  temperature : ℝ

/-- Line 14: `torch.cat([torch.arange(args.batch_size) for _ in range(args.n_views)], dim=0)` —
the source-image id of each of the `n_views * batch_size` rows. -/
def tiledLabels (args : NceArgs) : List Nat :=
  (List.replicate args.n_views (List.range args.batch_size)).flatten

/-- Line 15: `(labels.unsqueeze(0) == labels.unsqueeze(1)).float()` — the boolean
same-source matrix.  Entry at row `i`, column `j` is `labels j == labels i`.
The later `.float()` / `.bool()` round trip on a 0-1 matrix is the identity,
so the matrix is kept boolean here. -/
def labelMask (args : NceArgs) : Mat Bool :=
  (tiledLabels args).map (fun li => (tiledLabels args).map (fun lj => lj == li))

/-- Line 21 (negated): `~torch.eye(n, dtype=torch.bool)` — the off-diagonal mask. -/
def offDiag (n : Nat) : Mat Bool :=
  (List.range n).map (fun i => (List.range n).map (fun j => !(i == j)))

/-- Selection of the entries of one row kept by an aligned boolean mask row. -/
def rowSelect (row : List α) (m : List Bool) : List α :=
  ((row.zip m).filter (fun p => p.2)).map (fun p => p.1)

/-- Boolean-mask tensor indexing `M[P]` for same-shaped `M` and `P`: the kept
entries in row-major order. -/
def maskSelect (M : Mat α) (P : Mat Bool) : List α :=
  (List.zipWith rowSelect M P).flatten

/-- `v.view(n, -1)`.  PyTorch raises when the element count is zero (the `-1`
dimension is ambiguous) or when `n` does not divide it; otherwise the flat
vector is cut into `n` rows of `v.length / n` entries. -/
def view2 (v : List α) (n : Nat) : Option (Mat α) :=
  if v.length ≠ 0 ∧ n ≠ 0 ∧ v.length % n = 0 then
    some ((List.range n).map (fun i => (v.drop (i * (v.length / n))).take (v.length / n)))
  else none

/-- Squared Euclidean norm of a row. -/
def sqNorm (v : List ℝ) : ℝ := (v.map (fun x => x * x)).sum

/-- Line 18: `F.normalize(features, dim=1)` on one row — division by the L2
norm.  Exact arithmetic replaces the float `eps` clamp; an exactly zero row
maps to the zero row in both semantics. -/
noncomputable def l2normalize (v : List ℝ) : List ℝ :=
  v.map (fun x => x / Real.sqrt (sqNorm v))

/-- Row-wise normalization of the feature matrix. -/
noncomputable def normalizeRows (M : Mat ℝ) : Mat ℝ := M.map l2normalize

/-- Dot product of two rows. -/
def dot (u v : List ℝ) : ℝ := (List.zipWith (fun a b => a * b) u v).sum

/-- Line 20: `torch.matmul(features, features.T)` — the Gram matrix. -/
def gram (M : Mat ℝ) : Mat ℝ := M.map (fun r => M.map (fun c => dot r c))

/-- Line 31 restricted to one row: `logits / args.temperature`. -/
noncomputable def scaleRow (τ : ℝ) (row : List ℝ) : List ℝ :=
  row.map (fun x => x / τ)

/-- Line 22: `labels[~mask].view(labels.shape[0], -1)` — the same-source mask
with the diagonal removed. -/
def labelsRemoved (args : NceArgs) : Option (Mat Bool) :=
  view2 (maskSelect (labelMask args) (offDiag (tiledLabels args).length))
    (tiledLabels args).length

/-- Line 23: `similarity_matrix[~mask].view(similarity_matrix.shape[0], -1)`.
The boolean mask built on line 21 has side `labels.shape[0]`; PyTorch raises
when the similarity matrix does not have that shape, hence the guard. -/
noncomputable def simRemoved (features : Mat ℝ) (args : NceArgs) : Option (Mat ℝ) :=
  if (gram (normalizeRows features)).length = (tiledLabels args).length then
    view2 (maskSelect (gram (normalizeRows features)) (offDiag (tiledLabels args).length))
      (tiledLabels args).length
  else none

/-- Lines 13-32: the whole of `info_nce_loss`.  Returns the scaled logits and
the zero label vector, or `none` where the PyTorch code raises. -/
noncomputable def info_nce_loss (features : Mat ℝ) (args : NceArgs) :
    Option (Mat ℝ × List Nat) :=
  match labelsRemoved args with
  | none => none
  | some labels1 =>
    match simRemoved features args with
    | none => none
    | some sim1 =>
      match view2 (maskSelect sim1 labels1) labels1.length,
            view2 (maskSelect sim1 (labels1.map (List.map not))) sim1.length with
      | some pos, some neg =>
        some ((List.zipWith (fun p q => p ++ q) pos neg).map (scaleRow args.temperature),
          List.replicate (List.zipWith (fun p q => p ++ q) pos neg).length 0)
      | _, _ => none

/-! Characterization helpers (proof artifacts, not part of the embedding). -/

/-- Column indices surviving the diagonal removal in row `i` of an `n`-square
matrix. -/
def offBase (n i : Nat) : List Nat := (List.range n).filter (fun j => !(i == j))

/-- Whether rows `i` and `j` are views of the same source image. -/
def sameSrc (B i j : Nat) : Bool := j % B == i % B

/-- Row `i` of the normalized feature matrix. -/
noncomputable def nfRow (features : Mat ℝ) (i : Nat) : List ℝ :=
  l2normalize (features.getD i [])

/-! Embedding of `train_simclr` (lines 34-100).  The collaborators are opaque
in the source; an environment fixes the values they deliver at each global
step, and the loop is translated into a function returning the list of
observable events emitted before completion or failure. -/

/-- Observable actions of the training loop. -/
inductive Event where
  | wandbInit
  | saveConfig
  | metricLog (loss top1 top5 lr : ℝ) (step : Nat)
  | schedStep
  | epochDebugLog (epoch : Nat) (loss top1 : ℝ)
  | saveCheckpoint (epoch : Nat) (arch modelState optState filename : String)
  | wandbSave (filename : String)

/-- Discriminator for scheduler-advance events. -/
def Event.isSched : Event → Bool
  | .schedStep => true
  | _ => false

/-- Discriminator for metric-emission events. -/
def Event.isMetric : Event → Bool
  | .metricLog _ _ _ _ _ => true
  | _ => false

/-- Discriminator for the metric emission at global step `s`. -/
def Event.isMetricAt (s : Nat) : Event → Bool
  | .metricLog _ _ _ _ n => n == s
  | _ => false

/-- Discriminator for local checkpoint writes. -/
def Event.isCheckpoint : Event → Bool
  | .saveCheckpoint _ _ _ _ _ => true
  | _ => false

/-- Discriminator for artifact mirroring to the tracking service. -/
def Event.isWandbSave : Event → Bool
  | .wandbSave _ => true
  | _ => false

/-- Exceptions the loop can raise: the end-of-epoch debug f-string reading the
never-bound names `loss` / `top1`, a tracking-service failure propagating out
of `wandb.log` or `wandb.save`, and `n_iter % 0`. -/
inductive TrainError where
  | nameError
  | trackingError
  | zeroDivision

/-- Environment of a run: configuration plus the values the opaque
collaborators (model forward, criterion, accuracy, scheduler rate query,
tracking service) deliver at each global step. -/
structure LoopEnv where
  epochs : Nat
  numBatches : Nat
  K : Nat
  arch : String
  modelState : String
  optimizerState : String
  lossVal : Nat → ℝ
  top1Val : Nat → ℝ
  top5Val : Nat → ℝ
  lrAt : Nat → ℝ
  wandbLogOk : Nat → Bool
  wandbSaveOk : Bool

/-- Mutable names of the loop body: the global step counter and the values
last bound to the Python names `loss` and `top1` (`none` = never bound). -/
structure TState where
  n_iter : Nat
  lastLoss : Option ℝ
  lastTop1 : Option ℝ

/-- Lines 51-77: one batch.  Forward pass, loss, backward and optimizer step
happen via collaborators; every `log_every_n_steps`-th step emits the metric
dictionary to the tracking service; `n_iter` increments afterwards. -/
def runStep (env : LoopEnv) (s : TState) : TState × List Event × Option TrainError :=
  if env.K = 0 then (s, [], some TrainError.zeroDivision)
  else if s.n_iter % env.K = 0 then
    if env.wandbLogOk s.n_iter then
      (⟨s.n_iter + 1, some (env.lossVal s.n_iter), some (env.top1Val s.n_iter)⟩,
        [Event.metricLog (env.lossVal s.n_iter) (env.top1Val s.n_iter)
          (env.top5Val s.n_iter) (env.lrAt s.n_iter) s.n_iter],
        none)
    else (s, [], some TrainError.trackingError)
  else (⟨s.n_iter + 1, some (env.lossVal s.n_iter), s.lastTop1⟩, [], none)

/-- The inner `for images, _ in tqdm(train_loader)` loop over one epoch's
batches. -/
def runBatches (env : LoopEnv) (s : TState) :
    Nat → TState × List Event × Option TrainError
  | 0 => (s, [], none)
  | b + 1 =>
    match runStep env s with
    | (s1, evs1, some err) => (s1, evs1, some err)
    | (s1, evs1, none) =>
      match runBatches env s1 b with
      | (s2, evs2, err2) => (s2, evs1 ++ evs2, err2)

/-- Lines 79-82: what follows the batch loop in one epoch.  The scheduler
advances only from epoch 10 on, then the debug f-string reads the names
`loss` and `top1`; when no batch-loop iteration ever bound them this raises
a NameError (after the scheduler step, as in the source order). -/
def epochTail (e : Nat) (x : TState × List Event × Option TrainError) :
    TState × List Event × Option TrainError :=
  match x with
  | (s1, evs1, some err) => (s1, evs1, some err)
  | (s1, evs1, none) =>
    match s1.lastLoss, s1.lastTop1 with
    | some l, some t =>
      (s1, evs1 ++ (if 10 ≤ e then [Event.schedStep] else [])
        ++ [Event.epochDebugLog e l t], none)
    | _, _ =>
      (s1, evs1 ++ (if 10 ≤ e then [Event.schedStep] else []),
        some TrainError.nameError)

/-- Lines 50-82: one epoch — the batch loop followed by the epoch tail. -/
def runEpoch (env : LoopEnv) (e : Nat) (s : TState) :
    TState × List Event × Option TrainError :=
  epochTail e (runBatches env s env.numBatches)

/-- The outer `for epoch_counter in range(args.train_epochs)` loop, from epoch
index `i`, for `r` remaining epochs. -/
def runEpochs (env : LoopEnv) (s : TState) (i : Nat) :
    Nat → TState × List Event × Option TrainError
  | 0 => (s, [], none)
  | r + 1 =>
    match runEpoch env i s with
    | (s1, evs1, some err) => (s1, evs1, some err)
    | (s1, evs1, none) =>
      match runEpochs env s1 (i + 1) r with
      | (s2, evs2, err2) => (s2, evs1 ++ evs2, err2)

/-- Zero-pad a decimal string to width 4, as Python `format(e, "04d")` does. -/
def pad4 (s : String) : String :=
  String.mk (List.replicate (4 - s.length) (Char.ofNat 48)) ++ s

/-- Line 86: the checkpoint filename, a function of the configured epoch count
only. -/
def checkpoint_name (e : Nat) : String :=
  "checkpoint_" ++ pad4 (toString e) ++ ".pth.tar"

/-- Lines 34-100: the whole of `train_simclr`.  Initialization events, the
epoch loop, then the local checkpoint write followed by the mirror of the
artifact to the tracking service. -/
def train_simclr (env : LoopEnv) : List Event × Option TrainError :=
  let initEvs := [Event.wandbInit, Event.saveConfig]
  match runEpochs env ⟨0, none, none⟩ 0 env.epochs with
  | (_, evs, some err) => (initEvs ++ evs, some err)
  | (_, evs, none) =>
    let nm := checkpoint_name env.epochs
    let cp := Event.saveCheckpoint env.epochs env.arch env.modelState env.optimizerState nm
    if env.wandbSaveOk then (initEvs ++ evs ++ [cp, Event.wandbSave nm], none)
    else (initEvs ++ evs ++ [cp], some TrainError.trackingError)

/-- Events one batch at global step `n` emits when the tracking service is
healthy (characterization artifact). -/
def stepEvs (env : LoopEnv) (n : Nat) : List Event :=
  if n % env.K = 0 then
    [Event.metricLog (env.lossVal n) (env.top1Val n) (env.top5Val n)
      (env.lrAt n) n]
  else []

/-! Concrete inputs used by witnesses and counterexamples. -/

/-- A small healthy run: one epoch of one batch, logging every step (the
fields are epochs, numBatches, K, arch, model and optimizer state, the four
metric collaborators, the tracking-service health, and the mirror health). -/
noncomputable def envW : LoopEnv :=
  ⟨1, 1, 1, "resnet18", "m", "o",
    fun _ => 0, fun _ => 0, fun _ => 0, fun _ => 0, fun _ => true, true⟩

/-- The same run with a tracking service that fails at every metric
emission. -/
noncomputable def envFail : LoopEnv :=
  ⟨1, 1, 1, "resnet18", "m", "o",
    fun _ => 0, fun _ => 0, fun _ => 0, fun _ => 0, fun _ => false, true⟩

/-- A well-formed configuration: batch size 2, two views, temperature 1. -/
def argsW : NceArgs := ⟨2, 2, 1⟩

/-- A 4-row, 1-column feature matrix matching `argsW`. -/
noncomputable def featsW : Mat ℝ := [[1], [0], [2], [3]]

/-- Configuration with a single image per batch (two views of it),
temperature 1. -/
def argsB1 : NceArgs := ⟨1, 2, 1⟩

/-- A 2-row feature matrix matching `argsB1`. -/
noncomputable def featsB1 : Mat ℝ := [[1], [0]]

/-- A second single-image, two-view configuration, temperature 2. -/
def argsB1b : NceArgs := ⟨1, 2, 2⟩

/-- A second 2-row feature matrix. -/
noncomputable def featsB1b : Mat ℝ := [[5], [7]]

/-- Configuration whose only invalid field is the temperature, set to -1. -/
def argsNegTemp : NceArgs := ⟨2, 2, -1⟩

/-- Configuration with batch size 2 but a single view per image. -/
def argsN1 : NceArgs := ⟨2, 1, 1⟩

/-- A 2-row feature matrix matching `argsN1`. -/
noncomputable def featsN1 : Mat ℝ := [[1], [0]]

/-- A feature matrix with four nonzero rows, used for the rescaling claim. -/
noncomputable def featsW9 : Mat ℝ := [[1], [2], [3], [4]]

/-! Generic list lemmas used by the characterization of `info_nce_loss`. -/

lemma zipWith_map_same (h : β → γ → δ) (f : α → β) (g : α → γ) (l : List α) :
    List.zipWith h (l.map f) (l.map g) = l.map (fun x => h (f x) (g x)) := by
  induction l with
  | nil => rfl
  | cons a l ih => simp [ih]

lemma rowSelect_map (f : ι → α) (g : ι → Bool) (l : List ι) :
    rowSelect (l.map f) (l.map g) = (l.filter g).map f := by
  induction l with
  | nil => rfl
  | cons a l ih =>
    cases hg : g a <;>
      simp [rowSelect, List.filter_cons, hg] <;>
      simpa [rowSelect] using ih

lemma range_map_getD (l : List α) (d : α) :
    (List.range l.length).map (fun i => l.getD i d) = l := by
  induction l with
  | nil => rfl
  | cons a l ih =>
    rw [List.length_cons, List.range_succ_eq_map, List.map_cons, List.map_map]
    have hcomp : ((fun i => (a :: l).getD i d) ∘ Nat.succ) = fun i => l.getD i d := by
      funext i
      exact List.getD_cons_succ
    rw [hcomp, ih]
    rfl

lemma flatten_length_uniform (k : Nat) (L : Mat α) (hu : ∀ r ∈ L, r.length = k) :
    L.flatten.length = L.length * k := by
  induction L with
  | nil => simp
  | cons r t ih =>
    have hr : r.length = k := hu r (by simp)
    have ht : ∀ r ∈ t, r.length = k := fun r h => hu r (by simp [h])
    simp [List.flatten_cons, ih ht, hr, Nat.succ_mul, Nat.add_comm]

lemma flatten_chunk (k : Nat) (L : Mat α) (hu : ∀ r ∈ L, r.length = k) :
    (List.range L.length).map (fun i => (L.flatten.drop (i * k)).take k) = L := by
  induction L with
  | nil => rfl
  | cons r t ih =>
    have hr : r.length = k := hu r (by simp)
    have ht : ∀ r ∈ t, r.length = k := fun r h => hu r (by simp [h])
    rw [List.length_cons, List.range_succ_eq_map, List.map_cons, List.map_map]
    congr 1
    · simpa [List.flatten_cons] using List.take_left' hr
    · have hdrop : ∀ i : Nat, ((r :: t).flatten.drop ((i + 1) * k)).take k
          = (t.flatten.drop (i * k)).take k := by
        intro i
        have h1 : (i + 1) * k = k + i * k := by ring
        have h2 : (r :: t).flatten.drop k = t.flatten := by
          have hx : (r ++ t.flatten).drop k = t.flatten := List.drop_left' hr
          simpa [List.flatten_cons] using hx
        rw [h1, ← List.drop_drop, h2]
      calc ((List.range t.length).map fun x => (((r :: t).flatten.drop (Nat.succ x * k)).take k))
          = (List.range t.length).map fun x => (t.flatten.drop (x * k)).take k := by
            exact List.map_congr_left (fun i _ => by simpa [Nat.succ_eq_add_one] using hdrop i)
        _ = t := ih ht

lemma view2_flatten_uniform (L : Mat α) (k : Nat) (hk : 0 < k) (hn : 0 < L.length)
    (hu : ∀ r ∈ L, r.length = k) : view2 L.flatten L.length = some L := by
  have hlen : L.flatten.length = L.length * k := flatten_length_uniform k L hu
  have hne : L.flatten.length ≠ 0 := by
    rw [hlen]; exact Nat.mul_ne_zero hn.ne' hk.ne'
  have hmod : L.flatten.length % L.length = 0 := by
    rw [hlen]; exact Nat.mul_mod_right _ _
  have hdiv : L.flatten.length / L.length = k := by
    rw [hlen]; exact Nat.mul_div_cancel_left k hn
  rw [view2, if_pos ⟨hne, hn.ne', hmod⟩, hdiv, flatten_chunk k L hu]

lemma countP_not (p : α → Bool) (l : List α) :
    l.countP (fun a => !(p a)) = l.length - l.countP p := by
  induction l with
  | nil => rfl
  | cons a l ih =>
    have hle : l.countP p ≤ l.length := List.countP_le_length p
    cases hp : p a <;> simp [List.countP_cons, hp, ih] <;> omega

lemma countP_and_not_self (p : Nat → Bool) (i : Nat) (l : List Nat) (hnd : l.Nodup)
    (hi : i ∈ l) (hp : p i = true) :
    l.countP (fun j => p j && !(i == j)) = l.countP p - 1 := by
  induction l with
  | nil => cases hi
  | cons a l ih =>
    rcases List.mem_cons.mp hi with rfl | hmem
    · have hnot : i ∉ l := (List.nodup_cons.mp hnd).1
      have htail : l.countP (fun j => p j && !(i == j)) = l.countP p := by
        refine List.countP_congr (fun x hx => ?_)
        have : i ≠ x := fun h => hnot (h ▸ hx)
        simp [this]
      rw [List.countP_cons, List.countP_cons, htail]
      simp [hp]
    · have hnd2 : l.Nodup := (List.nodup_cons.mp hnd).2
      have hai : a ≠ i := fun h => (List.nodup_cons.mp hnd).1 (h ▸ hmem)
      have hpos : 0 < l.countP p := List.countP_pos_iff.mpr ⟨i, hmem, hp⟩
      rw [List.countP_cons, List.countP_cons, ih hnd2 hmem]
      have : (i == a) = false := by simp [Ne.symm hai]
      simp only [this, Bool.not_false, Bool.and_true]
      omega

lemma countP_res (B r : Nat) (hr : r < B) (N : Nat) :
    (List.range (N * B)).countP (fun j => j % B == r) = N := by
  induction N with
  | zero => simp
  | succ N ih =>
    have hNB : (N + 1) * B = N * B + B := by ring
    rw [hNB, List.range_add, List.countP_append, ih, List.countP_map]
    have hmap : (List.range B).countP ((fun j => j % B == r) ∘ fun x => N * B + x)
        = (List.range B).countP (fun x => x == r) := by
      refine List.countP_congr (fun x hx => ?_)
      have hx' : x < B := List.mem_range.mp hx
      have hmod : (N * B + x) % B = x % B := by
        rw [Nat.mul_comm N B, Nat.mul_add_mod]
      simp [Function.comp, hmod, Nat.mod_eq_of_lt hx']
    have hone : (List.range B).countP (fun x => x == r) = 1 := by
      have := List.count_eq_one_of_mem (List.nodup_range B) (List.mem_range.mpr hr)
      simpa [List.count] using this
    rw [hmap, hone]

lemma replicate_range_flatten (B N : Nat) :
    (List.replicate N (List.range B)).flatten
      = (List.range (N * B)).map (fun i => i % B) := by
  induction N with
  | zero => simp
  | succ N ih =>
    have hNB : (N + 1) * B = B + N * B := by ring
    rw [List.replicate_succ, List.flatten_cons, ih, hNB, List.range_add, List.map_append]
    congr 1
    · symm
      exact (List.map_congr_left (fun x hx =>
        Nat.mod_eq_of_lt (List.mem_range.mp hx))).trans (List.map_id _)
    · rw [List.map_map]
      refine (List.map_congr_left (fun x _ => ?_)).symm
      simp [Function.comp, Nat.add_mod_left]

/-! Stage characterization of `info_nce_loss`. -/

lemma view2_select_rows (n k : Nat) (hk : 0 < k) (hn : 0 < n)
    (base : Nat → List Nat) (A : Nat → Nat → α) (P : Nat → Nat → Bool)
    (hlen : ∀ i < n, ((base i).filter (P i)).length = k) :
    view2 (maskSelect ((List.range n).map (fun i => (base i).map (A i)))
        ((List.range n).map (fun i => (base i).map (P i)))) n
      = some ((List.range n).map (fun i => ((base i).filter (P i)).map (A i))) := by
  unfold maskSelect
  rw [zipWith_map_same, List.map_congr_left (fun i _ => rowSelect_map (A i) (P i) (base i))]
  have hu : ∀ r ∈ (List.range n).map (fun i => ((base i).filter (P i)).map (A i)),
      r.length = k := by
    intro r hr
    rcases List.mem_map.mp hr with ⟨i, hi, rfl⟩
    rw [List.length_map]
    exact hlen i (List.mem_range.mp hi)
  have hLl : ((List.range n).map
      (fun i => ((base i).filter (P i)).map (A i))).length = n := by simp
  have hmain := view2_flatten_uniform _ k hk (by rw [hLl]; exact hn) hu
  rw [hLl] at hmain
  exact hmain

lemma tiledLabels_eq (args : NceArgs) :
    tiledLabels args
      = (List.range (args.n_views * args.batch_size)).map
          (fun i => i % args.batch_size) :=
  replicate_range_flatten args.batch_size args.n_views

lemma tiledLabels_length (args : NceArgs) :
    (tiledLabels args).length = args.n_views * args.batch_size := by
  rw [tiledLabels_eq]; simp

lemma labelMask_eq (args : NceArgs) :
    labelMask args = (List.range (args.n_views * args.batch_size)).map (fun i =>
      (List.range (args.n_views * args.batch_size)).map
        (fun j => sameSrc args.batch_size i j)) := by
  unfold labelMask
  rw [tiledLabels_eq]
  simp [List.map_map, Function.comp, sameSrc]

lemma offBase_length (n i : Nat) (hi : i < n) : (offBase n i).length = n - 1 := by
  unfold offBase
  rw [← List.countP_eq_length_filter]
  have h1 : (List.range n).countP (fun j => !(i == j))
      = (List.range n).countP (fun j => (fun _ : Nat => true) j && !(i == j)) :=
    List.countP_congr (fun x _ => by simp)
  rw [h1, countP_and_not_self (fun _ => true) i _ (List.nodup_range n)
    (List.mem_range.mpr hi) rfl]
  simp [List.countP_true]

lemma labelsRemoved_eq (args : NceArgs)
    (h2 : 2 ≤ args.n_views * args.batch_size) :
    labelsRemoved args
      = some ((List.range (args.n_views * args.batch_size)).map
          (fun i => (offBase (args.n_views * args.batch_size) i).map
            (fun j => sameSrc args.batch_size i j))) := by
  unfold labelsRemoved
  rw [tiledLabels_length, labelMask_eq]
  have := view2_select_rows (args.n_views * args.batch_size)
    (args.n_views * args.batch_size - 1) (by omega) (by omega)
    (fun _ => List.range (args.n_views * args.batch_size))
    (fun i j => sameSrc args.batch_size i j)
    (fun i j => !(i == j))
    (fun i hi => offBase_length _ i hi)
  simpa [offDiag, offBase] using this

lemma gram_normalize_eq (features : Mat ℝ) :
    gram (normalizeRows features)
      = (List.range features.length).map (fun i =>
          (List.range features.length).map
            (fun j => dot (nfRow features i) (nfRow features j))) := by
  have h : normalizeRows features
      = (List.range features.length).map (nfRow features) := by
    unfold normalizeRows nfRow
    conv_lhs => rw [← range_map_getD features ([] : List ℝ)]
    rw [List.map_map]
    rfl
  unfold gram
  rw [h, List.map_map]
  refine List.map_congr_left (fun i _ => ?_)
  rw [Function.comp_apply, List.map_map]
  rfl

lemma simRemoved_eq (features : Mat ℝ) (args : NceArgs)
    (hf : features.length = args.n_views * args.batch_size)
    (h2 : 2 ≤ args.n_views * args.batch_size) :
    simRemoved features args
      = some ((List.range (args.n_views * args.batch_size)).map
          (fun i => (offBase (args.n_views * args.batch_size) i).map
            (fun j => dot (nfRow features i) (nfRow features j)))) := by
  unfold simRemoved
  rw [gram_normalize_eq, hf, tiledLabels_length, if_pos (by simp)]
  have := view2_select_rows (args.n_views * args.batch_size)
    (args.n_views * args.batch_size - 1) (by omega) (by omega)
    (fun _ => List.range (args.n_views * args.batch_size))
    (fun i j => dot (nfRow features i) (nfRow features j))
    (fun i j => !(i == j))
    (fun i hi => offBase_length _ i hi)
  simpa [offDiag, offBase] using this

lemma offBase_filter_same_length (B nv i : Nat) (hB : 0 < B) (hi : i < nv * B) :
    ((offBase (nv * B) i).filter (fun j => sameSrc B i j)).length = nv - 1 := by
  unfold offBase
  rw [List.filter_filter, ← List.countP_eq_length_filter]
  rw [countP_and_not_self (fun j => sameSrc B i j) i _ (List.nodup_range _)
    (List.mem_range.mpr hi) (by simp [sameSrc])]
  have hres : (List.range (nv * B)).countP (fun j => sameSrc B i j) = nv := by
    have := countP_res B (i % B) (Nat.mod_lt i hB) nv
    simpa [sameSrc] using this
  rw [hres]

lemma offBase_filter_diff_length (B nv i : Nat) (hB : 2 ≤ B) (hN : 2 ≤ nv)
    (hi : i < nv * B) :
    ((offBase (nv * B) i).filter (fun j => !(sameSrc B i j))).length
      = nv * B - nv := by
  rw [← List.countP_eq_length_filter, countP_not, offBase_length _ _ hi]
  have hsame : (offBase (nv * B) i).countP (fun j => sameSrc B i j) = nv - 1 := by
    rw [List.countP_eq_length_filter]
    exact offBase_filter_same_length B nv i (by omega) hi
  rw [hsame]
  have hmul : nv * 2 ≤ nv * B := Nat.mul_le_mul_left nv hB
  omega

lemma info_nce_loss_eq_of (features : Mat ℝ) (args : NceArgs)
    (labv : Mat Bool) (simv : Mat ℝ)
    (hl : labelsRemoved args = some labv)
    (hs : simRemoved features args = some simv) :
    info_nce_loss features args =
      match view2 (maskSelect simv labv) labv.length,
            view2 (maskSelect simv (labv.map (List.map not))) simv.length with
      | some pos, some neg =>
        some ((List.zipWith (fun p q => p ++ q) pos neg).map (scaleRow args.temperature),
          List.replicate (List.zipWith (fun p q => p ++ q) pos neg).length 0)
      | _, _ => none := by
  unfold info_nce_loss
  rw [hl, hs]

lemma info_nce_char (features : Mat ℝ) (args : NceArgs)
    (hN : 2 ≤ args.n_views) (hB : 2 ≤ args.batch_size)
    (hf : features.length = args.n_views * args.batch_size) :
    info_nce_loss features args = some (
      (List.range (args.n_views * args.batch_size)).map (fun i =>
        scaleRow args.temperature
          ((((offBase (args.n_views * args.batch_size) i).filter
              (fun j => sameSrc args.batch_size i j)).map
              (fun j => dot (nfRow features i) (nfRow features j)))
            ++ (((offBase (args.n_views * args.batch_size) i).filter
              (fun j => !(sameSrc args.batch_size i j))).map
              (fun j => dot (nfRow features i) (nfRow features j))))),
      List.replicate (args.n_views * args.batch_size) 0) := by
  have h2 : 2 ≤ args.n_views * args.batch_size := by
    calc 2 ≤ args.n_views := hN
    _ ≤ args.n_views * args.batch_size := Nat.le_mul_of_pos_right _ (by omega)
  rw [info_nce_loss_eq_of features args _ _
    (labelsRemoved_eq args h2) (simRemoved_eq features args hf h2)]
  have hlab : ((List.range (args.n_views * args.batch_size)).map
      (fun i => (offBase (args.n_views * args.batch_size) i).map
        (fun j => sameSrc args.batch_size i j))).length
      = args.n_views * args.batch_size := by simp
  have hsim : ((List.range (args.n_views * args.batch_size)).map
      (fun i => (offBase (args.n_views * args.batch_size) i).map
        (fun j => dot (nfRow features i) (nfRow features j)))).length
      = args.n_views * args.batch_size := by simp
  have hpos := view2_select_rows (args.n_views * args.batch_size)
    (args.n_views - 1) (by omega) (by omega)
    (offBase (args.n_views * args.batch_size))
    (fun i j => dot (nfRow features i) (nfRow features j))
    (fun i j => sameSrc args.batch_size i j)
    (fun i hi => offBase_filter_same_length args.batch_size args.n_views i
      (by omega) hi)
  have hnotmap : ((List.range (args.n_views * args.batch_size)).map
        (fun i => (offBase (args.n_views * args.batch_size) i).map
          (fun j => sameSrc args.batch_size i j))).map (List.map not)
      = (List.range (args.n_views * args.batch_size)).map
          (fun i => (offBase (args.n_views * args.batch_size) i).map
            (fun j => !(sameSrc args.batch_size i j))) := by
    rw [List.map_map]
    refine List.map_congr_left (fun i _ => ?_)
    rw [Function.comp_apply, List.map_map]
    rfl
  have hmulle : args.n_views * 2 ≤ args.n_views * args.batch_size :=
    Nat.mul_le_mul_left args.n_views hB
  have hneg := view2_select_rows (args.n_views * args.batch_size)
    (args.n_views * args.batch_size - args.n_views) (by omega) (by omega)
    (offBase (args.n_views * args.batch_size))
    (fun i j => dot (nfRow features i) (nfRow features j))
    (fun i j => !(sameSrc args.batch_size i j))
    (fun i hi => offBase_filter_diff_length args.batch_size args.n_views i
      hB hN hi)
  rw [hlab, hsim, hnotmap, hpos, hneg]
  have hzip := zipWith_map_same (fun p q => p ++ q)
    (fun i => (((offBase (args.n_views * args.batch_size) i).filter
      (fun j => sameSrc args.batch_size i j)).map
      (fun j => dot (nfRow features i) (nfRow features j))))
    (fun i => (((offBase (args.n_views * args.batch_size) i).filter
      (fun j => !(sameSrc args.batch_size i j))).map
      (fun j => dot (nfRow features i) (nfRow features j))))
    (List.range (args.n_views * args.batch_size))
  simp only [hzip, List.map_map, List.length_map, List.length_range]
  rfl

/-! Degenerate cases of the pipeline, and further helpers. -/

lemma count_true_map (f : α → Bool) (l : List α) : (l.map f).count true = l.countP f := by
  rw [List.count_eq_countP, List.countP_map]
  exact List.countP_congr (fun x _ => by simp)

lemma match_neg_none (x : Option (Mat ℝ)) (τ : ℝ) :
    (match x, (none : Option (Mat ℝ)) with
      | some pos, some neg =>
        some ((List.zipWith (fun p q => p ++ q) pos neg).map (scaleRow τ),
          List.replicate (List.zipWith (fun p q => p ++ q) pos neg).length 0)
      | _, _ => (none : Option (Mat ℝ × List Nat))) = none := by
  cases x <;> rfl

lemma match_pos_none (y : Option (Mat ℝ)) (τ : ℝ) :
    (match (none : Option (Mat ℝ)), y with
      | some pos, some neg =>
        some ((List.zipWith (fun p q => p ++ q) pos neg).map (scaleRow τ),
          List.replicate (List.zipWith (fun p q => p ++ q) pos neg).length 0)
      | _, _ => (none : Option (Mat ℝ × List Nat))) = none := by
  cases y <;> rfl

lemma maskSelect_all_false (n : Nat) (base : Nat → List Nat) (A : Nat → Nat → ℝ) :
    maskSelect ((List.range n).map (fun i => (base i).map (A i)))
      ((List.range n).map (fun i => (base i).map (fun _ => false))) = [] := by
  unfold maskSelect
  rw [zipWith_map_same,
    List.map_congr_left (fun i (_ : i ∈ List.range n) =>
      rowSelect_map (A i) (fun _ => false) (base i))]
  simp

lemma info_nce_B1 (features : Mat ℝ) (args : NceArgs)
    (hB1 : args.batch_size = 1) (hN : 2 ≤ args.n_views)
    (hf : features.length = args.n_views) :
    info_nce_loss features args = none := by
  have h2 : 2 ≤ args.n_views * args.batch_size := by rw [hB1]; simpa using hN
  have hf' : features.length = args.n_views * args.batch_size := by
    rw [hB1]; simpa using hf
  rw [info_nce_loss_eq_of features args _ _
    (labelsRemoved_eq args h2) (simRemoved_eq features args hf' h2)]
  have hmapnot : ((List.range (args.n_views * args.batch_size)).map
        (fun i => (offBase (args.n_views * args.batch_size) i).map
          (fun j => sameSrc args.batch_size i j))).map (List.map not)
      = (List.range (args.n_views * args.batch_size)).map
          (fun i => (offBase (args.n_views * args.batch_size) i).map
            (fun _ => false)) := by
    rw [List.map_map]
    refine List.map_congr_left (fun i _ => ?_)
    rw [Function.comp_apply, List.map_map]
    refine List.map_congr_left (fun j _ => ?_)
    simp [sameSrc, hB1, Nat.mod_one]
  rw [hmapnot, maskSelect_all_false]
  have hv : view2 ([] : List ℝ)
      (((List.range (args.n_views * args.batch_size)).map
        (fun i => (offBase (args.n_views * args.batch_size) i).map
          (fun j => dot (nfRow features i) (nfRow features j)))).length) = none := by
    simp [view2]
  rw [hv]
  exact match_neg_none _ _

lemma info_nce_N1 (features : Mat ℝ) (args : NceArgs)
    (hN1 : args.n_views = 1) (hB : 2 ≤ args.batch_size)
    (hf : features.length = args.batch_size) :
    info_nce_loss features args = none := by
  have h2 : 2 ≤ args.n_views * args.batch_size := by rw [hN1]; simpa using hB
  have hf' : features.length = args.n_views * args.batch_size := by
    rw [hN1]; simpa using hf
  rw [info_nce_loss_eq_of features args _ _
    (labelsRemoved_eq args h2) (simRemoved_eq features args hf' h2)]
  have hlabfalse : (List.range (args.n_views * args.batch_size)).map
        (fun i => (offBase (args.n_views * args.batch_size) i).map
          (fun j => sameSrc args.batch_size i j))
      = (List.range (args.n_views * args.batch_size)).map
          (fun i => (offBase (args.n_views * args.batch_size) i).map
            (fun _ => false)) := by
    refine List.map_congr_left (fun i hi => List.map_congr_left (fun j hj => ?_))
    have hin : i < args.batch_size := by
      have := List.mem_range.mp hi
      omega
    have hjmem := List.mem_filter.mp hj
    have hjn : j < args.batch_size := by
      have := List.mem_range.mp hjmem.1
      omega
    have hij : i ≠ j := by
      intro h
      simp [h] at hjmem
    simp [sameSrc, Nat.mod_eq_of_lt hin, Nat.mod_eq_of_lt hjn, Ne.symm hij]
  rw [hlabfalse, maskSelect_all_false]
  have hv : view2 ([] : List ℝ)
      (((List.range (args.n_views * args.batch_size)).map
        (fun i => (offBase (args.n_views * args.batch_size) i).map
          (fun _ => false))).length) = none := by
    simp [view2]
  rw [hv]

lemma l2normalize_smul (c : ℝ) (hc : 0 < c) (v : List ℝ) :
    l2normalize (v.map (fun x => c * x)) = l2normalize v := by
  have hsq : sqNorm (v.map (fun x => c * x)) = c ^ 2 * sqNorm v := by
    unfold sqNorm
    rw [List.map_map]
    have hfun : ((fun x => x * x) ∘ fun x => c * x) = fun x => c ^ 2 * (x * x) := by
      funext x
      simp only [Function.comp_apply]
      ring
    rw [hfun, List.sum_map_mul_left]
  unfold l2normalize
  rw [hsq, List.map_map]
  have hs : Real.sqrt (c ^ 2 * sqNorm v) = c * Real.sqrt (sqNorm v) := by
    rw [Real.sqrt_mul (sq_nonneg c), Real.sqrt_sq hc.le]
  rw [hs]
  refine List.map_congr_left (fun x _ => ?_)
  rw [Function.comp_apply]
  exact mul_div_mul_left x _ hc.ne'

lemma scaleRow_length (τ : ℝ) (row : List ℝ) : (scaleRow τ row).length = row.length := by
  simp [scaleRow]

lemma scaleRow_get (τ : ℝ) (row : List ℝ) (m : Nat) (hm : m < (scaleRow τ row).length) :
    (scaleRow τ row).get ⟨m, hm⟩
      = row.get ⟨m, by simpa [scaleRow] using hm⟩ / τ := by
  simp [scaleRow]

/-! Claim theorems about `info_nce_loss`. -/

/-- Claim C1 (amended to batch sizes of at least 2): for features of shape
(N·B, D) with N ≥ 2 views and B ≥ 2 images, every row of the diagonal-removed
label mask holds exactly N−1 positive entries, and every row of the returned
logits is the positive similarities of that row followed by its N·B−N
negative similarities, all divided by the temperature. -/
theorem C1_label_mask_and_logit_layout (features : Mat ℝ) (args : NceArgs)
    (hN : 2 ≤ args.n_views) (hB : 2 ≤ args.batch_size)
    (hf : features.length = args.n_views * args.batch_size) :
    ∃ L S, labelsRemoved args = some L ∧ simRemoved features args = some S ∧
      (∀ row ∈ L, row.count true = args.n_views - 1) ∧
      info_nce_loss features args
        = some ((List.zipWith (fun srow lrow =>
            scaleRow args.temperature
              (rowSelect srow lrow ++ rowSelect srow (lrow.map not))) S L),
          List.replicate (args.n_views * args.batch_size) 0) ∧
      (∀ p ∈ S.zip L, (rowSelect p.1 p.2).length = args.n_views - 1 ∧
        (rowSelect p.1 (p.2.map not)).length
          = args.n_views * args.batch_size - args.n_views) := by
  have h2 : 2 ≤ args.n_views * args.batch_size := by
    calc 2 ≤ args.n_views := hN
    _ ≤ args.n_views * args.batch_size := Nat.le_mul_of_pos_right _ (by omega)
  refine ⟨_, _, labelsRemoved_eq args h2, simRemoved_eq features args hf h2,
    ?_, ?_, ?_⟩
  · intro row hrow
    rcases List.mem_map.mp hrow with ⟨i, hi, rfl⟩
    rw [count_true_map, List.countP_eq_length_filter]
    exact offBase_filter_same_length args.batch_size args.n_views i (by omega)
      (List.mem_range.mp hi)
  · have hz : List.zipWith (fun srow lrow =>
        scaleRow args.temperature
          (rowSelect srow lrow ++ rowSelect srow (lrow.map not)))
        ((List.range (args.n_views * args.batch_size)).map
          (fun i => (offBase (args.n_views * args.batch_size) i).map
            (fun j => dot (nfRow features i) (nfRow features j))))
        ((List.range (args.n_views * args.batch_size)).map
          (fun i => (offBase (args.n_views * args.batch_size) i).map
            (fun j => sameSrc args.batch_size i j)))
        = (List.range (args.n_views * args.batch_size)).map (fun i =>
            scaleRow args.temperature
              ((((offBase (args.n_views * args.batch_size) i).filter
                  (fun j => sameSrc args.batch_size i j)).map
                  (fun j => dot (nfRow features i) (nfRow features j)))
                ++ (((offBase (args.n_views * args.batch_size) i).filter
                  (fun j => !(sameSrc args.batch_size i j))).map
                  (fun j => dot (nfRow features i) (nfRow features j))))) := by
      rw [zipWith_map_same]
      refine List.map_congr_left (fun i _ => ?_)
      rw [rowSelect_map, List.map_map, rowSelect_map]
      rfl
    rw [hz]
    exact info_nce_char features args hN hB hf
  · intro p hp
    rw [List.zip_map'] at hp
    rcases List.mem_map.mp hp with ⟨i, hi, rfl⟩
    constructor
    · rw [rowSelect_map, List.length_map]
      exact offBase_filter_same_length args.batch_size args.n_views i (by omega)
        (List.mem_range.mp hi)
    · rw [List.map_map, rowSelect_map, List.length_map]
      exact offBase_filter_diff_length args.batch_size args.n_views i hB hN
        (List.mem_range.mp hi)

/-- Claim C1, failure of the original statement at batch size 1: with N = 2
views of a single image there are no negatives, the reshape of the empty
negative selection raises, and `info_nce_loss` returns no logits at all. -/
theorem C1_counterexample_batch_one : info_nce_loss featsB1 argsB1 = none :=
  info_nce_B1 featsB1 argsB1 rfl (by norm_num [argsB1]) (by norm_num [featsB1, argsB1])

/-- Claim C1, witness instantiating the amended theorem at N = 2, B = 2. -/
theorem C1_witness :
    2 ≤ argsW.n_views ∧ 2 ≤ argsW.batch_size ∧
      featsW.length = argsW.n_views * argsW.batch_size ∧
      (∃ L S, labelsRemoved argsW = some L ∧ simRemoved featsW argsW = some S ∧
        (∀ row ∈ L, row.count true = argsW.n_views - 1) ∧
        info_nce_loss featsW argsW
          = some ((List.zipWith (fun srow lrow =>
              scaleRow argsW.temperature
                (rowSelect srow lrow ++ rowSelect srow (lrow.map not))) S L),
            List.replicate (argsW.n_views * argsW.batch_size) 0) ∧
        (∀ p ∈ S.zip L, (rowSelect p.1 p.2).length = argsW.n_views - 1 ∧
          (rowSelect p.1 (p.2.map not)).length
            = argsW.n_views * argsW.batch_size - argsW.n_views)) :=
  ⟨by norm_num [argsW], by norm_num [argsW], by norm_num [featsW, argsW],
    C1_label_mask_and_logit_layout featsW argsW (by norm_num [argsW])
      (by norm_num [argsW]) (by norm_num [featsW, argsW])⟩

/-- Claim C2 (amended to batch sizes of at least 2): for features of shape
(N·B, D) with N ≥ 2 and B ≥ 2, `info_nce_loss` returns logits of shape
(N·B, N·B−1) and the constant zero label vector of length N·B. -/
theorem C2_logits_labels_shape (features : Mat ℝ) (args : NceArgs)
    (hN : 2 ≤ args.n_views) (hB : 2 ≤ args.batch_size)
    (hf : features.length = args.n_views * args.batch_size) :
    ∃ logits, info_nce_loss features args
        = some (logits, List.replicate (args.n_views * args.batch_size) 0) ∧
      logits.length = args.n_views * args.batch_size ∧
      ∀ row ∈ logits, row.length = args.n_views * args.batch_size - 1 := by
  refine ⟨_, info_nce_char features args hN hB hf, by simp, ?_⟩
  intro row hrow
  rcases List.mem_map.mp hrow with ⟨i, hi, rfl⟩
  rw [scaleRow_length, List.length_append, List.length_map, List.length_map]
  rw [offBase_filter_same_length args.batch_size args.n_views i (by omega)
      (List.mem_range.mp hi),
    offBase_filter_diff_length args.batch_size args.n_views i hB hN
      (List.mem_range.mp hi)]
  have hmulle : args.n_views * 2 ≤ args.n_views * args.batch_size :=
    Nat.mul_le_mul_left args.n_views hB
  omega

/-- Claim C2, failure of the original statement at batch size 1: the code
raises instead of returning a logits tensor of shape (N·B, N·B−1). -/
theorem C2_counterexample_batch_one : info_nce_loss featsB1b argsB1b = none :=
  info_nce_B1 featsB1b argsB1b rfl (by norm_num [argsB1b])
    (by norm_num [featsB1b, argsB1b])

/-- Claim C2, witness instantiating the amended theorem at N = 2, B = 2. -/
theorem C2_witness :
    2 ≤ argsW.n_views ∧ 2 ≤ argsW.batch_size ∧
      featsW.length = argsW.n_views * argsW.batch_size ∧
      (∃ logits, info_nce_loss featsW argsW
          = some (logits, List.replicate (argsW.n_views * argsW.batch_size) 0) ∧
        logits.length = argsW.n_views * argsW.batch_size ∧
        ∀ row ∈ logits, row.length = argsW.n_views * argsW.batch_size - 1) :=
  ⟨by norm_num [argsW], by norm_num [argsW], by norm_num [featsW, argsW],
    C2_logits_labels_shape featsW argsW (by norm_num [argsW])
      (by norm_num [argsW]) (by norm_num [featsW, argsW])⟩

/-- Claim C3: the code performs no configuration validation.  A negative
temperature is silently accepted (`info_nce_loss` returns logits), and a
single-view configuration fails only inside the pair construction during the
first training step — no configuration error is raised before training. -/
theorem C3_invalid_config_not_rejected :
    (∃ out, info_nce_loss featsW argsNegTemp = some out) ∧
    info_nce_loss featsN1 argsN1 = none := by
  constructor
  · exact ⟨_, info_nce_char featsW argsNegTemp (by norm_num [argsNegTemp])
      (by norm_num [argsNegTemp]) (by norm_num [featsW, argsNegTemp])⟩
  · exact info_nce_N1 featsN1 argsN1 rfl (by norm_num [argsN1])
      (by norm_num [featsN1, argsN1])

/-- Claim C8: dividing a logits row elementwise by a temperature τ > 0 is
strictly order-preserving entrywise, so a position holding the row maximum
before scaling holds it after scaling and conversely. -/
theorem C8_temperature_order_preserving (τ : ℝ) (hτ : 0 < τ) (row : List ℝ)
    (i j : Nat) (hi : i < row.length) (hj : j < row.length) :
    (row.get ⟨i, hi⟩ < row.get ⟨j, hj⟩ ↔
      (scaleRow τ row).get ⟨i, by simpa [scaleRow] using hi⟩
        < (scaleRow τ row).get ⟨j, by simpa [scaleRow] using hj⟩) ∧
    ((∀ m (hm : m < row.length), row.get ⟨m, hm⟩ ≤ row.get ⟨i, hi⟩) ↔
      (∀ m (hm : m < (scaleRow τ row).length),
        (scaleRow τ row).get ⟨m, hm⟩
          ≤ (scaleRow τ row).get ⟨i, by simpa [scaleRow] using hi⟩)) := by
  constructor
  · rw [scaleRow_get, scaleRow_get]
    exact (div_lt_div_iff_of_pos_right hτ).symm
  · constructor
    · intro h m hm
      rw [scaleRow_get, scaleRow_get]
      exact (div_le_div_iff_of_pos_right hτ).mpr (h m (by simpa [scaleRow] using hm))
    · intro h m hm
      have hall := h m (by simpa [scaleRow] using hm)
      rw [scaleRow_get, scaleRow_get] at hall
      exact (div_le_div_iff_of_pos_right hτ).mp hall

/-- Claim C8, witness at τ = 2 on the row [1, 3]. -/
theorem C8_witness :
    (([(1:ℝ), 3]).get ⟨0, by simp⟩ < ([(1:ℝ), 3]).get ⟨1, by simp⟩ ↔
      (scaleRow 2 [(1:ℝ), 3]).get ⟨0, by simp [scaleRow]⟩
        < (scaleRow 2 [(1:ℝ), 3]).get ⟨1, by simp [scaleRow]⟩) ∧
    ((∀ m (hm : m < ([(1:ℝ), 3]).length),
        ([(1:ℝ), 3]).get ⟨m, hm⟩ ≤ ([(1:ℝ), 3]).get ⟨0, by simp⟩) ↔
      (∀ m (hm : m < (scaleRow 2 [(1:ℝ), 3]).length),
        (scaleRow 2 [(1:ℝ), 3]).get ⟨m, hm⟩
          ≤ (scaleRow 2 [(1:ℝ), 3]).get ⟨0, by simp [scaleRow]⟩)) :=
  C8_temperature_order_preserving 2 (by norm_num) [(1:ℝ), 3] 0 1 (by simp) (by simp)

/-- Claim C9: `info_nce_loss` is invariant under positive rescaling of a
feature matrix with nonzero rows, because every row is L2-normalized before
the similarity matrix is formed. -/
theorem C9_rescale_invariance (features : Mat ℝ) (args : NceArgs) (c : ℝ)
    (hc : 0 < c) (hrows : ∀ row ∈ features, ∃ x ∈ row, x ≠ 0) :
    info_nce_loss (features.map (List.map (fun x => c * x))) args
      = info_nce_loss features args := by
  have hnorm : normalizeRows (features.map (List.map (fun x => c * x)))
      = normalizeRows features := by
    unfold normalizeRows
    rw [List.map_map]
    refine List.map_congr_left (fun v _ => ?_)
    rw [Function.comp_apply]
    exact l2normalize_smul c hc v
  unfold info_nce_loss simRemoved
  rw [hnorm]

/-- Claim C9, witness at c = 2 on a four-row feature matrix. -/
theorem C9_witness :
    (0:ℝ) < 2 ∧ (∀ row ∈ featsW9, ∃ x ∈ row, x ≠ 0) ∧
    info_nce_loss (featsW9.map (List.map (fun x => (2:ℝ) * x))) argsW
      = info_nce_loss featsW9 argsW :=
  ⟨by norm_num, by norm_num [featsW9],
    C9_rescale_invariance featsW9 argsW 2 (by norm_num) (by norm_num [featsW9])⟩

/-! Lemmas about the training loop: step and batch level. -/

lemma runStep_events (env : LoopEnv) (s : TState) :
    (runStep env s).2.1 = [] ∨
    (runStep env s).2.1
      = [Event.metricLog (env.lossVal s.n_iter) (env.top1Val s.n_iter)
          (env.top5Val s.n_iter) (env.lrAt s.n_iter) s.n_iter] := by
  unfold runStep
  split_ifs <;> simp

lemma runBatches_succ_none (env : LoopEnv) (s : TState) (b : Nat)
    {s1 : TState} {evs1 : List Event} (hs : runStep env s = (s1, evs1, none)) :
    runBatches env s (b + 1)
      = ((runBatches env s1 b).1, evs1 ++ (runBatches env s1 b).2.1,
        (runBatches env s1 b).2.2) := by
  simp only [runBatches]
  rw [hs]

lemma runBatches_succ_some (env : LoopEnv) (s : TState) (b : Nat)
    {s1 : TState} {evs1 : List Event} {e : TrainError}
    (hs : runStep env s = (s1, evs1, some e)) :
    runBatches env s (b + 1) = (s1, evs1, some e) := by
  simp only [runBatches]
  rw [hs]

lemma runBatches_countP_zero (env : LoopEnv) (p : Event → Bool)
    (hp : ∀ l t f lr n, p (Event.metricLog l t f lr n) = false) :
    ∀ (b : Nat) (s : TState), ((runBatches env s b).2.1).countP p = 0 := by
  intro b
  induction b with
  | zero => intro s; simp [runBatches]
  | succ b ih =>
    intro s
    have hstep : ((runStep env s).2.1).countP p = 0 := by
      rcases runStep_events env s with h | h <;> rw [h] <;> simp [hp]
    rcases hs : runStep env s with ⟨s1, evs1, err⟩
    have hevs1 : evs1.countP p = 0 := by
      rw [hs] at hstep
      exact hstep
    rcases err with _ | e
    · rw [runBatches_succ_none env s b hs]
      simp [List.countP_append, hevs1, ih s1]
    · rw [runBatches_succ_some env s b hs]
      simpa using hevs1

lemma runStep_happy (env : LoopEnv) (s : TState) (hK : env.K ≠ 0)
    (hok : env.wandbLogOk s.n_iter = true) :
    runStep env s
      = (⟨s.n_iter + 1, some (env.lossVal s.n_iter),
          if s.n_iter % env.K = 0 then some (env.top1Val s.n_iter)
          else s.lastTop1⟩,
        stepEvs env s.n_iter, none) := by
  unfold runStep stepEvs
  rw [if_neg hK]
  by_cases hmod : s.n_iter % env.K = 0
  · simp [hmod, hok]
  · simp [hmod]

lemma runBatches_happy (env : LoopEnv) (hK : env.K ≠ 0)
    (hok : ∀ n, env.wandbLogOk n = true) :
    ∀ (b : Nat) (s : TState), ∃ L T : Option ℝ,
      runBatches env s b
        = (⟨s.n_iter + b, L, T⟩,
          ((List.range b).map (fun i => stepEvs env (s.n_iter + i))).flatten,
          none)
      ∧ (b ≠ 0 → L.isSome = true)
      ∧ (b = 0 → L = s.lastLoss)
      ∧ (s.lastTop1.isSome = true → T.isSome = true)
      ∧ (b ≠ 0 → s.n_iter % env.K = 0 → T.isSome = true)
      ∧ (b = 0 → T = s.lastTop1) := by
  intro b
  induction b with
  | zero =>
    intro s
    refine ⟨s.lastLoss, s.lastTop1, rfl, ?_, fun _ => rfl, fun h => h, ?_,
      fun _ => rfl⟩
    · intro h; exact absurd rfl h
    · intro h _; exact absurd rfl h
  | succ b ih =>
    intro s
    obtain ⟨L, T, heq, hL1, hL0, hTmono, hT1, hT0⟩ :=
      ih ⟨s.n_iter + 1, some (env.lossVal s.n_iter),
        if s.n_iter % env.K = 0 then some (env.top1Val s.n_iter)
        else s.lastTop1⟩
    have hs1top : s.lastTop1.isSome = true →
        (if s.n_iter % env.K = 0 then some (env.top1Val s.n_iter)
          else s.lastTop1).isSome = true := by
      intro hs0
      by_cases hmod : s.n_iter % env.K = 0 <;> simp [hmod, hs0]
    refine ⟨L, T, ?_, ?_, ?_, ?_, ?_, ?_⟩
    · have hnum : s.n_iter + (b + 1) = s.n_iter + 1 + b := by omega
      have hev : ((List.range (b + 1)).map
            (fun i => stepEvs env (s.n_iter + i))).flatten
          = stepEvs env s.n_iter
            ++ ((List.range b).map
              (fun i => stepEvs env (s.n_iter + 1 + i))).flatten := by
        rw [List.range_succ_eq_map, List.map_cons, List.flatten_cons, List.map_map]
        congr 1
        refine congrArg List.flatten (List.map_congr_left (fun i _ => ?_))
        simp only [Function.comp_apply]
        congr 1
        omega
      rw [hnum, hev]
      rw [runBatches_succ_none env s b (runStep_happy env s hK (hok s.n_iter)), heq]
    · intro _
      rcases Nat.eq_zero_or_pos b with hb | hb
      · subst hb
        simp [hL0 rfl]
      · exact hL1 (by omega)
    · intro h
      exact absurd h (Nat.succ_ne_zero b)
    · intro hs0
      rcases Nat.eq_zero_or_pos b with hb | hb
      · subst hb
        rw [hT0 rfl]
        exact hs1top hs0
      · exact hTmono (hs1top hs0)
    · intro _ hmod
      have hsome : (if s.n_iter % env.K = 0 then some (env.top1Val s.n_iter)
          else s.lastTop1).isSome = true := by simp [hmod]
      rcases Nat.eq_zero_or_pos b with hb | hb
      · subst hb
        rw [hT0 rfl]
        exact hsome
      · exact hTmono hsome
    · intro h
      exact absurd h (Nat.succ_ne_zero b)

/-! Lemmas about the training loop: epoch and run level. -/

lemma epochTail_some (e : Nat) (s1 : TState) (evs1 : List Event) (err : TrainError) :
    epochTail e (s1, evs1, some err) = (s1, evs1, some err) := rfl

lemma epochTail_bound (e : Nat) (s1 : TState) (evs1 : List Event) {l t : ℝ}
    (hl : s1.lastLoss = some l) (ht : s1.lastTop1 = some t) :
    epochTail e (s1, evs1, none)
      = (s1, evs1 ++ (if 10 ≤ e then [Event.schedStep] else [])
          ++ [Event.epochDebugLog e l t], none) := by
  simp only [epochTail]
  rw [hl, ht]

lemma epochTail_unbound (e : Nat) (s1 : TState) (evs1 : List Event)
    (h : s1.lastLoss.isSome = false ∨ s1.lastTop1.isSome = false) :
    epochTail e (s1, evs1, none)
      = (s1, evs1 ++ (if 10 ≤ e then [Event.schedStep] else []),
        some TrainError.nameError) := by
  simp only [epochTail]
  rcases hL : s1.lastLoss with _ | l
  · rcases hT : s1.lastTop1 with _ | t <;> rfl
  · rcases hT : s1.lastTop1 with _ | t
    · rfl
    · rw [hL, hT] at h
      simp at h

lemma runEpochs_succ_some (env : LoopEnv) (s : TState) (i r : Nat)
    {s1 : TState} {evs1 : List Event} {e : TrainError}
    (h : runEpoch env i s = (s1, evs1, some e)) :
    runEpochs env s i (r + 1) = (s1, evs1, some e) := by
  simp only [runEpochs]
  rw [h]

lemma runEpochs_succ_none (env : LoopEnv) (s : TState) (i r : Nat)
    {s1 : TState} {evs1 : List Event}
    (h : runEpoch env i s = (s1, evs1, none)) :
    runEpochs env s i (r + 1)
      = ((runEpochs env s1 (i + 1) r).1,
        evs1 ++ (runEpochs env s1 (i + 1) r).2.1,
        (runEpochs env s1 (i + 1) r).2.2) := by
  simp only [runEpochs]
  rw [h]

lemma train_simclr_eq_some (env : LoopEnv) {st : TState} {evs : List Event}
    {e : TrainError}
    (h : runEpochs env ⟨0, none, none⟩ 0 env.epochs = (st, evs, some e)) :
    train_simclr env = ([Event.wandbInit, Event.saveConfig] ++ evs, some e) := by
  unfold train_simclr
  rw [h]

lemma train_simclr_eq_none (env : LoopEnv) {st : TState} {evs : List Event}
    (h : runEpochs env ⟨0, none, none⟩ 0 env.epochs = (st, evs, none)) :
    train_simclr env
      = ([Event.wandbInit, Event.saveConfig] ++ evs
          ++ Event.saveCheckpoint env.epochs env.arch env.modelState
              env.optimizerState (checkpoint_name env.epochs)
            :: (if env.wandbSaveOk then [Event.wandbSave (checkpoint_name env.epochs)]
              else []),
        if env.wandbSaveOk then none else some TrainError.trackingError) := by
  unfold train_simclr
  rw [h]
  by_cases hw : env.wandbSaveOk <;> simp [hw]

lemma runEpoch_happy (env : LoopEnv) (hK : env.K ≠ 0)
    (hok : ∀ n, env.wandbLogOk n = true) (hB : env.numBatches ≠ 0)
    (e : Nat) (s : TState)
    (hJ : s.n_iter % env.K = 0 ∨
      (s.lastLoss.isSome = true ∧ s.lastTop1.isSome = true)) :
    ∃ l t : ℝ,
      runEpoch env e s
        = (⟨s.n_iter + env.numBatches, some l, some t⟩,
          ((List.range env.numBatches).map
            (fun i => stepEvs env (s.n_iter + i))).flatten
            ++ (if 10 ≤ e then [Event.schedStep] else [])
            ++ [Event.epochDebugLog e l t], none) := by
  obtain ⟨L, T, heq, hL1, _, hTmono, hT1, _⟩ :=
    runBatches_happy env hK hok env.numBatches s
  have hLsome : L.isSome = true := hL1 hB
  have hTsome : T.isSome = true := by
    rcases hJ with hmod | ⟨_, ht⟩
    · exact hT1 hB hmod
    · exact hTmono ht
  obtain ⟨l, hl⟩ := Option.isSome_iff_exists.mp hLsome
  obtain ⟨t, ht⟩ := Option.isSome_iff_exists.mp hTsome
  subst hl
  subst ht
  refine ⟨l, t, ?_⟩
  unfold runEpoch
  rw [heq]
  exact epochTail_bound e _ _ rfl rfl

lemma stepFlat_countP_zero (env : LoopEnv) (p : Event → Bool)
    (hp : ∀ l t f lr n, p (Event.metricLog l t f lr n) = false)
    (b start : Nat) :
    ((((List.range b).map (fun i => stepEvs env (start + i))).flatten).countP p)
      = 0 := by
  induction b with
  | zero => simp
  | succ b ih =>
    rw [List.range_succ, List.map_append, List.flatten_append, List.countP_append, ih]
    have hstep : (stepEvs env (start + b)).countP p = 0 := by
      unfold stepEvs
      by_cases hm : (start + b) % env.K = 0 <;> simp [hm, hp]
    simp [hstep]

lemma stepFlat_metricAt_count (env : LoopEnv) (b start n : Nat) :
    ((((List.range b).map (fun i => stepEvs env (start + i))).flatten).countP
      (Event.isMetricAt n))
      = if start ≤ n ∧ n < start + b ∧ n % env.K = 0 then 1 else 0 := by
  induction b with
  | zero =>
    simp only [List.range_zero, List.map_nil, List.flatten_nil, List.countP_nil]
    rw [if_neg]
    rintro ⟨h1, h2, _⟩
    omega
  | succ b ih =>
    rw [List.range_succ, List.map_append, List.flatten_append, List.countP_append,
      ih]
    have hstep : (stepEvs env (start + b)).countP (Event.isMetricAt n)
        = if (start + b) % env.K = 0 ∧ n = start + b then 1 else 0 := by
      unfold stepEvs
      by_cases hm : (start + b) % env.K = 0
      · by_cases hn : n = start + b
        · subst hn
          simp [hm, Event.isMetricAt]
        · rw [if_pos hm, if_neg (by tauto)]
          have : (start + b == n) = false := by
            simp
            omega
          simp [Event.isMetricAt, this]
      · rw [if_neg hm, if_neg (by tauto)]
        simp
    simp only [List.map_cons, List.map_nil, List.flatten_cons, List.flatten_nil,
      List.append_nil]
    rw [hstep]
    by_cases hn : n = start + b
    · subst hn
      by_cases hm : (start + b) % env.K = 0 <;> simp [hm] <;> omega
    · by_cases hm : n % env.K = 0
      · simp only [hm, and_true]
        split_ifs <;> omega
      · have hmb : ¬((start + b) % env.K = 0 ∧ n = start + b) := by tauto
        simp [hm, hmb]

lemma stepFlat_metric_mem (env : LoopEnv) (b start : Nat) :
    ∀ (l t f lr : ℝ) (n : Nat),
      Event.metricLog l t f lr n
          ∈ (((List.range b).map (fun i => stepEvs env (start + i))).flatten) →
      l = env.lossVal n ∧ t = env.top1Val n ∧ f = env.top5Val n
        ∧ lr = env.lrAt n := by
  intro l t f lr n hmem
  rcases List.mem_flatten.mp hmem with ⟨row, hrow, hmemrow⟩
  rcases List.mem_map.mp hrow with ⟨idx, _, rfl⟩
  unfold stepEvs at hmemrow
  by_cases hm : (start + idx) % env.K = 0
  · rw [if_pos hm] at hmemrow
    have h5 := List.mem_singleton.mp hmemrow
    simp only [Event.metricLog.injEq] at h5
    obtain ⟨h1, h2, h3, h4, h5⟩ := h5
    subst h5
    exact ⟨h1, h2, h3, h4⟩
  · rw [if_neg hm] at hmemrow
    simp at hmemrow

lemma sched_count_shift (i r : Nat) :
    (List.range (r + 1)).countP (fun q => decide (10 ≤ i + q))
      = (if 10 ≤ i then 1 else 0)
        + (List.range r).countP (fun q => decide (10 ≤ i + 1 + q)) := by
  rw [List.range_succ_eq_map, List.countP_cons, List.countP_map]
  have hcong : (List.range r).countP ((fun q => decide (10 ≤ i + q)) ∘ Nat.succ)
      = (List.range r).countP (fun q => decide (10 ≤ i + 1 + q)) := by
    refine List.countP_congr (fun x _ => ?_)
    simp only [Function.comp_apply, decide_eq_true_eq]
    omega
  rw [hcong]
  by_cases h : 10 ≤ i <;> simp [h] <;> omega

lemma countP_ge_ten (n : Nat) :
    (List.range n).countP (fun q => decide (10 ≤ q)) = n - min 10 n := by
  induction n with
  | zero => simp
  | succ n ih =>
    rw [List.range_succ, List.countP_append, ih]
    by_cases h : 10 ≤ n <;> simp [h] <;> omega

lemma runEpochs_happy (env : LoopEnv) (hK : env.K ≠ 0)
    (hok : ∀ n, env.wandbLogOk n = true) (hB : env.numBatches ≠ 0) :
    ∀ (r i : Nat) (s : TState),
      (s.n_iter % env.K = 0 ∨
        (s.lastLoss.isSome = true ∧ s.lastTop1.isSome = true)) →
      (runEpochs env s i r).2.2 = none ∧
      (∀ n, ((runEpochs env s i r).2.1).countP (Event.isMetricAt n)
        = if s.n_iter ≤ n ∧ n < s.n_iter + r * env.numBatches ∧ n % env.K = 0
          then 1 else 0) ∧
      (((runEpochs env s i r).2.1).countP Event.isSched
        = (List.range r).countP (fun q => decide (10 ≤ i + q))) ∧
      (∀ l t f lr n, Event.metricLog l t f lr n ∈ (runEpochs env s i r).2.1 →
        l = env.lossVal n ∧ t = env.top1Val n ∧ f = env.top5Val n
          ∧ lr = env.lrAt n) := by
  intro r
  induction r with
  | zero =>
    intro i s _
    refine ⟨rfl, ?_, by simp [runEpochs], ?_⟩
    · intro n
      simp only [runEpochs, List.countP_nil]
      rw [if_neg]
      rintro ⟨h1, h2, _⟩
      omega
    · intro l t f lr n hmem
      simp [runEpochs] at hmem
  | succ r ih =>
    intro i s hJ
    obtain ⟨l, t, hep⟩ := runEpoch_happy env hK hok hB i s hJ
    obtain ⟨iherr, ihcnt, ihsched, ihmem⟩ :=
      ih (i + 1) ⟨s.n_iter + env.numBatches, some l, some t⟩ (Or.inr ⟨rfl, rfl⟩)
    rw [runEpochs_succ_none env s i r hep]
    refine ⟨iherr, ?_, ?_, ?_⟩
    · intro n
      rw [List.countP_append, List.countP_append, List.countP_append,
        stepFlat_metricAt_count, ihcnt n]
      have hschemet : (if 10 ≤ i then [Event.schedStep] else []).countP
          (Event.isMetricAt n) = 0 := by
        by_cases h10 : 10 ≤ i <;> simp [h10, Event.isMetricAt]
      have hdbg : ([Event.epochDebugLog i l t]).countP (Event.isMetricAt n) = 0 := by
        simp [Event.isMetricAt]
      rw [hschemet, hdbg]
      have hrb : (r + 1) * env.numBatches
          = env.numBatches + r * env.numBatches := by ring
      by_cases hm : n % env.K = 0
      · simp only [hm, and_true]
        split_ifs <;> omega
      · simp [hm]
    · rw [List.countP_append, List.countP_append, List.countP_append,
        stepFlat_countP_zero env Event.isSched (fun _ _ _ _ _ => rfl), ihsched,
        sched_count_shift]
      have hschedif : (if 10 ≤ i then [Event.schedStep] else []).countP
          Event.isSched = if 10 ≤ i then 1 else 0 := by
        by_cases h10 : 10 ≤ i <;> simp [h10, Event.isSched]
      have hdbg : ([Event.epochDebugLog i l t]).countP Event.isSched = 0 := by
        simp [Event.isSched]
      rw [hschedif, hdbg]
      omega
    · intro l2 t2 f2 lr2 n hmem
      rcases List.mem_append.mp hmem with hmem1 | hmemtail
      · rcases List.mem_append.mp hmem1 with hmem2 | hdbg
        · rcases List.mem_append.mp hmem2 with hstepm | hschedm
          · exact stepFlat_metric_mem env _ _ _ _ _ _ _ hstepm
          · by_cases h10 : 10 ≤ i
            · rw [if_pos h10] at hschedm
              simp at hschedm
            · rw [if_neg h10] at hschedm
              simp at hschedm
        · simp at hdbg
      · exact ihmem _ _ _ _ _ hmemtail

lemma runEpoch_success_decomp (env : LoopEnv) (e : Nat) (s : TState)
    (h : (runEpoch env e s).2.2 = none) :
    ∃ l t : ℝ,
      runEpoch env e s
        = ((runBatches env s env.numBatches).1,
          (runBatches env s env.numBatches).2.1
            ++ (if 10 ≤ e then [Event.schedStep] else [])
            ++ [Event.epochDebugLog e l t], none)
      ∧ (runBatches env s env.numBatches).2.2 = none := by
  unfold runEpoch at h ⊢
  rcases hrb : runBatches env s env.numBatches with ⟨s1, evs1, err1⟩
  rw [hrb] at h
  rcases err1 with _ | e1
  · rcases hL : s1.lastLoss with _ | l
    · rw [epochTail_unbound e s1 evs1 (Or.inl (by simp [hL]))] at h
      simp at h
    · rcases hT : s1.lastTop1 with _ | t
      · rw [epochTail_unbound e s1 evs1 (Or.inr (by simp [hT]))] at h
        simp at h
      · exact ⟨l, t, by rw [epochTail_bound e s1 evs1 hL hT], rfl⟩
  · rw [epochTail_some] at h
    simp at h

lemma runEpoch_success_sched_count (env : LoopEnv) (e : Nat) (s : TState)
    (h : (runEpoch env e s).2.2 = none) :
    ((runEpoch env e s).2.1).countP Event.isSched = if 10 ≤ e then 1 else 0 := by
  obtain ⟨l, t, heq, _⟩ := runEpoch_success_decomp env e s h
  rw [heq]
  rw [List.countP_append, List.countP_append,
    runBatches_countP_zero env Event.isSched (fun _ _ _ _ _ => rfl)]
  by_cases h10 : 10 ≤ e <;> simp [h10, Event.isSched]

lemma runEpochs_success_sched_count (env : LoopEnv) :
    ∀ (r i : Nat) (s : TState),
      (runEpochs env s i r).2.2 = none →
      ((runEpochs env s i r).2.1).countP Event.isSched
        = (List.range r).countP (fun q => decide (10 ≤ i + q)) := by
  intro r
  induction r with
  | zero =>
    intro i s _
    simp [runEpochs]
  | succ r ih =>
    intro i s hsucc
    rcases hep : runEpoch env i s with ⟨s1, evs1, err1⟩
    rcases err1 with _ | e1
    · rw [runEpochs_succ_none env s i r hep] at hsucc ⊢
      have hsucc1 : (runEpoch env i s).2.2 = none := by rw [hep]
      have hevs1 : (runEpoch env i s).2.1 = evs1 := by rw [hep]
      rw [List.countP_append, ← hevs1,
        runEpoch_success_sched_count env i s hsucc1, ih (i + 1) s1 hsucc,
        sched_count_shift]
    · rw [runEpochs_succ_some env s i r hep] at hsucc
      simp at hsucc

lemma runEpochs_countP_zero (env : LoopEnv) (p : Event → Bool)
    (hpm : ∀ l t f lr n, p (Event.metricLog l t f lr n) = false)
    (hps : p Event.schedStep = false)
    (hpd : ∀ e l t, p (Event.epochDebugLog e l t) = false) :
    ∀ (r i : Nat) (s : TState), ((runEpochs env s i r).2.1).countP p = 0 := by
  have hepoch : ∀ e s0, ((runEpoch env e s0).2.1).countP p = 0 := by
    intro e s0
    unfold runEpoch
    rcases hrb : runBatches env s0 env.numBatches with ⟨s1, evs1, err1⟩
    have hb : evs1.countP p = 0 := by
      have hx := runBatches_countP_zero env p hpm env.numBatches s0
      rw [hrb] at hx
      exact hx
    have hschedif : (if 10 ≤ e then [Event.schedStep] else []).countP p = 0 := by
      by_cases h10 : 10 ≤ e <;> simp [h10, hps]
    rcases err1 with _ | e1
    · rcases hL : s1.lastLoss with _ | l
      · rw [epochTail_unbound e s1 evs1 (Or.inl (by simp [hL]))]
        simp [List.countP_append, hb, hschedif]
      · rcases hT : s1.lastTop1 with _ | t
        · rw [epochTail_unbound e s1 evs1 (Or.inr (by simp [hT]))]
          simp [List.countP_append, hb, hschedif]
        · rw [epochTail_bound e s1 evs1 hL hT]
          simp [List.countP_append, hb, hschedif, hpd]
    · rw [epochTail_some]
      simpa using hb
  intro r
  induction r with
  | zero => intro i s; simp [runEpochs]
  | succ r ih =>
    intro i s
    rcases hep : runEpoch env i s with ⟨s1, evs1, err1⟩
    have h1 : evs1.countP p = 0 := by
      have hx := hepoch i s
      rw [hep] at hx
      exact hx
    rcases err1 with _ | e1
    · rw [runEpochs_succ_none env s i r hep]
      simp [List.countP_append, h1, ih (i + 1) s1]
    · rw [runEpochs_succ_some env s i r hep]
      simpa using h1

lemma runEpoch0_success_facts (env : LoopEnv)
    (h : (runEpoch env 0 ⟨0, none, none⟩).2.2 = none) :
    1 ≤ env.numBatches ∧
    Event.metricLog (env.lossVal 0) (env.top1Val 0) (env.top5Val 0)
        (env.lrAt 0) 0 ∈ (runEpoch env 0 ⟨0, none, none⟩).2.1 := by
  obtain ⟨l, t, heq, hrbnone⟩ := runEpoch_success_decomp env 0 ⟨0, none, none⟩ h
  rcases hBz : env.numBatches with _ | b
  · exfalso
    unfold runEpoch at h
    rw [hBz] at h
    simp [runBatches, epochTail] at h
  · refine ⟨by omega, ?_⟩
    rcases hKz : env.K with _ | k
    · exfalso
      have hstep : runStep env ⟨0, none, none⟩
          = (⟨0, none, none⟩, [], some TrainError.zeroDivision) := by
        unfold runStep
        rw [if_pos hKz]
      have hrb := runBatches_succ_some env ⟨0, none, none⟩ b hstep
      rw [hBz, hrb] at hrbnone
      simp at hrbnone
    · rcases hok0 : env.wandbLogOk 0 with _ | _
      · exfalso
        have hstep : runStep env ⟨0, none, none⟩
            = (⟨0, none, none⟩, [], some TrainError.trackingError) := by
          unfold runStep
          rw [if_neg (by simp [hKz]), if_pos (Nat.zero_mod _), if_neg (by simp [hok0])]
        have hrb := runBatches_succ_some env ⟨0, none, none⟩ b hstep
        rw [hBz, hrb] at hrbnone
        simp at hrbnone
      · have hstep : runStep env ⟨0, none, none⟩
            = (⟨1, some (env.lossVal 0), some (env.top1Val 0)⟩,
              [Event.metricLog (env.lossVal 0) (env.top1Val 0) (env.top5Val 0)
                (env.lrAt 0) 0], none) := by
          unfold runStep
          rw [if_neg (by simp [hKz]), if_pos (Nat.zero_mod _), if_pos hok0]
        have hrbeq := runBatches_succ_none env ⟨0, none, none⟩ b hstep
        rw [heq]
        refine List.mem_append.mpr (Or.inl (List.mem_append.mpr (Or.inl ?_)))
        rw [hBz, hrbeq]
        exact List.mem_append.mpr (Or.inl (by simp))

/-! Claim theorems about `train_simclr`. -/

/-- Claim C4: the scheduler-advance operation is never invoked during a batch
(each epoch's trace is batch events, then the conditional scheduler step, then
the debug log), it is skipped entirely for epoch indices 0 through 9, and a
completed run advances the scheduler exactly `train_epochs - min 10
train_epochs` times — once per epoch from epoch 10 on. -/
theorem C4_scheduler_warmup (env : LoopEnv) :
    (∀ (e : Nat) (s : TState), (runEpoch env e s).2.2 = none →
      ∃ pre l t, (runEpoch env e s).2.1
          = pre ++ (if 10 ≤ e then [Event.schedStep] else [])
            ++ [Event.epochDebugLog e l t]
        ∧ pre.countP Event.isSched = 0) ∧
    ((runEpochs env ⟨0, none, none⟩ 0 env.epochs).2.2 = none →
      (train_simclr env).1.countP Event.isSched
        = env.epochs - min 10 env.epochs) := by
  constructor
  · intro e s h
    obtain ⟨l, t, heq, _⟩ := runEpoch_success_decomp env e s h
    refine ⟨(runBatches env s env.numBatches).2.1, l, t, by rw [heq], ?_⟩
    exact runBatches_countP_zero env Event.isSched (fun _ _ _ _ _ => rfl)
      env.numBatches s
  · intro h
    have h3 : runEpochs env ⟨0, none, none⟩ 0 env.epochs
        = ((runEpochs env ⟨0, none, none⟩ 0 env.epochs).1,
          (runEpochs env ⟨0, none, none⟩ 0 env.epochs).2.1, none) := by
      rw [← h]
    have hsched := runEpochs_success_sched_count env env.epochs 0 ⟨0, none, none⟩ h
    rw [train_simclr_eq_none env h3]
    have hz : ((Event.saveCheckpoint env.epochs env.arch env.modelState
          env.optimizerState (checkpoint_name env.epochs))
        :: (if env.wandbSaveOk then [Event.wandbSave (checkpoint_name env.epochs)]
          else [])).countP Event.isSched = 0 := by
      by_cases hw : env.wandbSaveOk <;> simp [hw, Event.isSched]
    rw [List.countP_append, List.countP_append, hz, hsched]
    have hcong : (List.range env.epochs).countP (fun q => decide (10 ≤ 0 + q))
        = (List.range env.epochs).countP (fun q => decide (10 ≤ q)) :=
      List.countP_congr (fun x _ => by simp)
    rw [hcong, countP_ge_ten]
    simp [Event.isSched]

/-- Claim C4, witness: a one-epoch run (inside the warm-up window, so zero
scheduler steps). -/
theorem C4_witness :
    ((runEpoch envW 0 ⟨0, none, none⟩).2.2 = none) ∧
    (∃ pre l t, (runEpoch envW 0 ⟨0, none, none⟩).2.1
        = pre ++ (if 10 ≤ 0 then [Event.schedStep] else [])
          ++ [Event.epochDebugLog 0 l t]
      ∧ pre.countP Event.isSched = 0) ∧
    ((runEpochs envW ⟨0, none, none⟩ 0 envW.epochs).2.2 = none) ∧
    ((train_simclr envW).1.countP Event.isSched
      = envW.epochs - min 10 envW.epochs) :=
  ⟨rfl, (C4_scheduler_warmup envW).1 0 ⟨0, none, none⟩ rfl, rfl,
    (C4_scheduler_warmup envW).2 rfl⟩

/-- Claim C5: a completed run writes exactly one checkpoint record carrying
the configured epoch count, architecture id, model state and optimizer state,
under a filename determined solely by the epoch count; the local write sits
before the tracking-service mirror in the trace, and when the mirror fails
the local checkpoint event is still present while the failure is reported. -/
theorem C5_checkpoint_local_before_mirror (env : LoopEnv)
    (h : (runEpochs env ⟨0, none, none⟩ 0 env.epochs).2.2 = none) :
    (train_simclr env).1
        = [Event.wandbInit, Event.saveConfig]
          ++ (runEpochs env ⟨0, none, none⟩ 0 env.epochs).2.1
          ++ Event.saveCheckpoint env.epochs env.arch env.modelState
              env.optimizerState (checkpoint_name env.epochs)
            :: (if env.wandbSaveOk then [Event.wandbSave (checkpoint_name env.epochs)]
              else []) ∧
    (train_simclr env).1.countP Event.isCheckpoint = 1 ∧
    ((runEpochs env ⟨0, none, none⟩ 0 env.epochs).2.1).countP
      Event.isCheckpoint = 0 ∧
    ((runEpochs env ⟨0, none, none⟩ 0 env.epochs).2.1).countP
      Event.isWandbSave = 0 ∧
    (train_simclr env).2
      = (if env.wandbSaveOk then none else some TrainError.trackingError) := by
  have h3 : runEpochs env ⟨0, none, none⟩ 0 env.epochs
      = ((runEpochs env ⟨0, none, none⟩ 0 env.epochs).1,
        (runEpochs env ⟨0, none, none⟩ 0 env.epochs).2.1, none) := by
    rw [← h]
  have hcz := runEpochs_countP_zero env Event.isCheckpoint (fun _ _ _ _ _ => rfl)
    rfl (fun _ _ _ => rfl) env.epochs 0 ⟨0, none, none⟩
  have hwz := runEpochs_countP_zero env Event.isWandbSave (fun _ _ _ _ _ => rfl)
    rfl (fun _ _ _ => rfl) env.epochs 0 ⟨0, none, none⟩
  refine ⟨by rw [train_simclr_eq_none env h3], ?_, hcz, hwz, ?_⟩
  · rw [train_simclr_eq_none env h3]
    rw [List.countP_append, List.countP_append, hcz]
    by_cases hw : env.wandbSaveOk <;> simp [hw, Event.isCheckpoint]
  · rw [train_simclr_eq_none env h3]

/-- Claim C5, witness: the healthy one-epoch run. -/
theorem C5_witness :
    ((runEpochs envW ⟨0, none, none⟩ 0 envW.epochs).2.2 = none) ∧
    ((train_simclr envW).1
        = [Event.wandbInit, Event.saveConfig]
          ++ (runEpochs envW ⟨0, none, none⟩ 0 envW.epochs).2.1
          ++ Event.saveCheckpoint envW.epochs envW.arch envW.modelState
              envW.optimizerState (checkpoint_name envW.epochs)
            :: (if envW.wandbSaveOk then [Event.wandbSave (checkpoint_name envW.epochs)]
              else []) ∧
      (train_simclr envW).1.countP Event.isCheckpoint = 1 ∧
      ((runEpochs envW ⟨0, none, none⟩ 0 envW.epochs).2.1).countP
        Event.isCheckpoint = 0 ∧
      ((runEpochs envW ⟨0, none, none⟩ 0 envW.epochs).2.1).countP
        Event.isWandbSave = 0 ∧
      (train_simclr envW).2
        = (if envW.wandbSaveOk then none else some TrainError.trackingError)) :=
  ⟨rfl, C5_checkpoint_local_before_mirror envW rfl⟩

/-- Claim C6: contrary to the claim, a tracking-service failure during metric
emission is not swallowed — the training loop has no handler around the
emission, so the run aborts with the tracking error, never reaching a metric
event or the checkpoint write. -/
theorem C6_tracking_failure_aborts_run :
    (train_simclr envFail).2 = some TrainError.trackingError ∧
    (train_simclr envFail).1.countP Event.isCheckpoint = 0 ∧
    (train_simclr envFail).1.countP Event.isMetric = 0 :=
  ⟨rfl, rfl, rfl⟩

/-- Claim C7: with a healthy tracking service and K = log_every_n_steps ≥ 1,
a run emits a metric event for global step n exactly when n is a multiple of
K and n lies below `train_epochs * batches_per_epoch` — the step counter runs
across epoch boundaries without reset — and the event carries exactly the
loss, top-1, top-5, learning-rate and step values of that step. -/
theorem C7_metric_logging (env : LoopEnv) (hK : 1 ≤ env.K)
    (hok : ∀ n, env.wandbLogOk n = true) (hB : 1 ≤ env.numBatches) :
    (∀ n, (train_simclr env).1.countP (Event.isMetricAt n)
      = if n < env.epochs * env.numBatches ∧ n % env.K = 0 then 1 else 0) ∧
    (∀ l t f lr n, Event.metricLog l t f lr n ∈ (train_simclr env).1 →
      l = env.lossVal n ∧ t = env.top1Val n ∧ f = env.top5Val n
        ∧ lr = env.lrAt n ∧ n < env.epochs * env.numBatches) := by
  obtain ⟨herr, hcnt, _, hmem⟩ :=
    runEpochs_happy env (by omega) hok (by omega) env.epochs 0 ⟨0, none, none⟩
      (Or.inl (Nat.zero_mod _))
  have hproj : (⟨0, none, none⟩ : TState).n_iter = 0 := rfl
  simp only [hproj] at hcnt
  have h3 : runEpochs env ⟨0, none, none⟩ 0 env.epochs
      = ((runEpochs env ⟨0, none, none⟩ 0 env.epochs).1,
        (runEpochs env ⟨0, none, none⟩ 0 env.epochs).2.1, none) := by
    rw [← herr]
  constructor
  · intro n
    rw [train_simclr_eq_none env h3, List.countP_append, List.countP_append,
      hcnt n]
    have hinit : ([Event.wandbInit, Event.saveConfig]).countP
        (Event.isMetricAt n) = 0 := rfl
    have htail : ((Event.saveCheckpoint env.epochs env.arch env.modelState
          env.optimizerState (checkpoint_name env.epochs))
        :: (if env.wandbSaveOk then [Event.wandbSave (checkpoint_name env.epochs)]
          else [])).countP (Event.isMetricAt n) = 0 := by
      by_cases hw : env.wandbSaveOk <;> simp [hw, Event.isMetricAt]
    rw [hinit, htail]
    by_cases hm : n % env.K = 0
    · simp only [hm, and_true]
      split_ifs <;> omega
    · simp [hm]
  · intro l t f lr n hmemtr
    rw [train_simclr_eq_none env h3] at hmemtr
    rcases List.mem_append.mp hmemtr with h1 | h2
    · rcases List.mem_append.mp h1 with h0 | hevs
      · simp at h0
      · obtain ⟨e1, e2, e3, e4⟩ := hmem _ _ _ _ _ hevs
        refine ⟨e1, e2, e3, e4, ?_⟩
        have hpos : 0 < ((runEpochs env ⟨0, none, none⟩ 0 env.epochs).2.1).countP
            (Event.isMetricAt n) :=
          List.countP_pos_iff.mpr ⟨_, hevs, by simp [Event.isMetricAt]⟩
        rw [hcnt n] at hpos
        by_contra hlt
        rw [if_neg] at hpos
        · simp at hpos
        · rintro ⟨_, hlt2, _⟩
          exact hlt (by omega)
    · rcases List.mem_cons.mp h2 with hcp | htl
      · simp at hcp
      · by_cases hw : env.wandbSaveOk
        · rw [if_pos hw] at htl
          simp at htl
        · rw [if_neg hw] at htl
          simp at htl

/-- Claim C7, witness: the healthy one-epoch run with K = 1. -/
theorem C7_witness :
    1 ≤ envW.K ∧ (∀ n, envW.wandbLogOk n = true) ∧ 1 ≤ envW.numBatches ∧
    ((∀ n, (train_simclr envW).1.countP (Event.isMetricAt n)
        = if n < envW.epochs * envW.numBatches ∧ n % envW.K = 0 then 1 else 0) ∧
      (∀ l t f lr n, Event.metricLog l t f lr n ∈ (train_simclr envW).1 →
        l = envW.lossVal n ∧ t = envW.top1Val n ∧ f = envW.top5Val n
          ∧ lr = envW.lrAt n ∧ n < envW.epochs * envW.numBatches)) :=
  ⟨by norm_num [envW], fun _ => rfl, by norm_num [envW],
    C7_metric_logging envW (by norm_num [envW]) (fun _ => rfl)
      (by norm_num [envW])⟩

/-- Claim C10: with at least one configured epoch, an empty first epoch makes
the run fail at the end-of-epoch debug log (NameError on the never-bound
names) before any checkpoint event; conversely a trace that reaches the
checkpoint write had at least one batch and contains the metric emission of
global step 0. -/
theorem C10_empty_first_epoch (env : LoopEnv) (he : 1 ≤ env.epochs) :
    (env.numBatches = 0 →
      (train_simclr env).2 = some TrainError.nameError ∧
      (train_simclr env).1.countP Event.isCheckpoint = 0) ∧
    (1 ≤ (train_simclr env).1.countP Event.isCheckpoint →
      1 ≤ env.numBatches ∧
      1 ≤ (train_simclr env).1.countP (Event.isMetricAt 0)) := by
  obtain ⟨e, he'⟩ : ∃ e, env.epochs = e + 1 := ⟨env.epochs - 1, by omega⟩
  constructor
  · intro h0
    have hep : runEpoch env 0 ⟨0, none, none⟩
        = (⟨0, none, none⟩, [], some TrainError.nameError) := by
      unfold runEpoch
      rw [h0]
      rfl
    have hrun : runEpochs env ⟨0, none, none⟩ 0 env.epochs
        = (⟨0, none, none⟩, [], some TrainError.nameError) := by
      rw [he']
      exact runEpochs_succ_some env ⟨0, none, none⟩ 0 e hep
    rw [train_simclr_eq_some env hrun]
    exact ⟨rfl, rfl⟩
  · intro hcp
    rcases hrun : runEpochs env ⟨0, none, none⟩ 0 env.epochs with ⟨st, evs, err⟩
    have hcz : evs.countP Event.isCheckpoint = 0 := by
      have hx := runEpochs_countP_zero env Event.isCheckpoint (fun _ _ _ _ _ => rfl)
        rfl (fun _ _ _ => rfl) env.epochs 0 ⟨0, none, none⟩
      rw [hrun] at hx
      exact hx
    rcases err with _ | e1
    · rcases hep : runEpoch env 0 ⟨0, none, none⟩ with ⟨s1, evs1, err1⟩
      rcases err1 with _ | e2
      · have hfacts := runEpoch0_success_facts env (by rw [hep])
        refine ⟨hfacts.1, ?_⟩
        have hx := hfacts.2
        rw [hep] at hx
        have hreq : runEpochs env ⟨0, none, none⟩ 0 env.epochs
            = ((runEpochs env s1 1 e).1, evs1 ++ (runEpochs env s1 1 e).2.1,
              (runEpochs env s1 1 e).2.2) := by
          rw [he']
          exact runEpochs_succ_none env ⟨0, none, none⟩ 0 e hep
        rw [hrun] at hreq
        have hevs : evs = evs1 ++ (runEpochs env s1 1 e).2.1 :=
          congrArg (fun x => x.2.1) hreq
        have hmem0 : Event.metricLog (env.lossVal 0) (env.top1Val 0)
            (env.top5Val 0) (env.lrAt 0) 0 ∈ evs := by
          rw [hevs]
          exact List.mem_append.mpr (Or.inl hx)
        have hintrace : Event.metricLog (env.lossVal 0) (env.top1Val 0)
            (env.top5Val 0) (env.lrAt 0) 0 ∈ (train_simclr env).1 := by
          rw [train_simclr_eq_none env hrun]
          exact List.mem_append.mpr (Or.inl (List.mem_append.mpr (Or.inr hmem0)))
        have hpos : 0 < (train_simclr env).1.countP (Event.isMetricAt 0) :=
          List.countP_pos_iff.mpr ⟨_, hintrace, rfl⟩
        omega
      · have hx : runEpochs env ⟨0, none, none⟩ 0 env.epochs = (s1, evs1, some e2) := by
          rw [he']
          exact runEpochs_succ_some env ⟨0, none, none⟩ 0 e hep
        rw [hrun] at hx
        exact Option.noConfusion (congrArg (fun x => x.2.2) hx)
    · rw [train_simclr_eq_some env hrun] at hcp
      rw [List.countP_append, hcz] at hcp
      have hinit : ([Event.wandbInit, Event.saveConfig]).countP
          Event.isCheckpoint = 0 := rfl
      rw [hinit] at hcp
      exact absurd hcp (by omega)

/-- Claim C10, witness: the healthy one-epoch, one-batch run. -/
theorem C10_witness :
    1 ≤ envW.epochs ∧
    ((envW.numBatches = 0 →
      (train_simclr envW).2 = some TrainError.nameError ∧
      (train_simclr envW).1.countP Event.isCheckpoint = 0) ∧
    (1 ≤ (train_simclr envW).1.countP Event.isCheckpoint →
      1 ≤ envW.numBatches ∧
      1 ≤ (train_simclr envW).1.countP (Event.isMetricAt 0))) :=
  ⟨by norm_num [envW], C10_empty_first_epoch envW (by norm_num [envW])⟩

end SimCLR
